import Mathlib

set_option maxRecDepth 100000

/-!
Verification of the Noir code generator of `zk-regex`
(`packages/compiler/src/noir.rs`).

The generator `to_noir_fn` takes a `RegexAndDFA` (a DFA plus anchor and
substring metadata) and emits Noir source text consisting of
  * a compile-time routine `make_lookup_table` that builds a flat
    transition table of size `256 * |states|`, and
  * a driver `regex_match` that walks the table over the input bytes.

This file embeds the generator itself (including its `panic!`/`assert!`
failure paths, modelled with `Except String`) and, separately, the
semantics of the emitted Noir code (the table that the emitted
`make_lookup_table` computes, and the state walk that the emitted
`regex_match` performs).  Theorems about the claims of the specification
follow the definitions.
-/

namespace ZkRegexNoir

/-- Modelled from the spec: one DFA state (`crate::structs`, not part of the
compiler source under verification).  Per §3 of the spec a state carries an
`id`, a kind (the source stores it as the string `state_type`, with
`"accept"` marking accept states), and transitions mapping a destination
state id to the set of byte values that move there.  The Rust ordered
collections (`BTreeMap`/`BTreeSet`) are modelled as ordered lists. -/
structure DFAStateInfo where
  state_id : Nat
  state_type : String
  transitions : List (Nat × List Nat)
  deriving DecidableEq, Repr

/-- Modelled from the spec: the DFA is an ordered sequence of states. -/
structure DFAGraph where
  states : List DFAStateInfo
  deriving DecidableEq, Repr

/-- Modelled from the spec: substring-boundary metadata; `substring_ranges`
is a sequence of sets of `(from_state, to_state)` edge pairs. -/
structure SubstringDefinitions where
  substring_ranges : List (List (Nat × Nat))
  deriving DecidableEq, Repr

/-- Modelled from the spec: the input to the generator — the DFA, the
original pattern text, the end-anchor flag and the substring metadata. -/
structure RegexAndDFA where
  regex_pattern : String
  dfa : DFAGraph
  has_end_anchor : Bool
  substrings : SubstringDefinitions
  deriving DecidableEq, Repr

/-! ## Embedding of `to_noir_fn` (noir.rs lines 28-162)

Rust panics (`expect`, `assert!`, `assert_eq!`) are modelled as
`Except.error` carrying the panic message; a panic aborts the whole
generation call, so the embedding returns `Except String String`. -/

/-- noir.rs lines 29-36: the accept state id is the id of the *last* state
of the state sequence; generation panics if the list is empty
(`expect("no last state")`) or if the last state is not of accept type
(`assert!(last_state.state_type == "accept")`). -/
def acceptStateIdE (r : RegexAndDFA) : Except String Nat :=
  match r.dfa.states.getLast? with
  | none => .error "no last state"
  | some last_state =>
      if last_state.state_type = "accept" then .ok last_state.state_id
      else .error "last state is accept, right??"

/-- noir.rs lines 52-56: the `(curr_state, char_code, next_state)` rows
contributed by one state: for each transition entry (destination id,
byte set) and each byte in the set, one row. -/
def stateRows (st : DFAStateInfo) : List (Nat × Nat × Nat) :=
  st.transitions.flatMap (fun tr => tr.2.map (fun char_code => (st.state_id, char_code, tr.1)))

/-- noir.rs lines 45-58: the loop over the states.  Carries the accumulated
rows and the running `highest_state` (updated with `max` before the branch);
an accept state must have an empty transition set
(`assert_eq!(state.transitions.len(), 0, "accept state has transitions")`)
and a non-accept state a non-empty one
(`assert!(state.transitions.len() > 0, "no transitions")`). -/
def processGo : List DFAStateInfo → List (Nat × Nat × Nat) × Nat →
    Except String (List (Nat × Nat × Nat) × Nat)
  | [], acc => .ok acc
  | st :: rest, (rows, highest) =>
      let highest2 := max st.state_id highest
      if st.state_type = "accept" then
        if st.transitions.length = 0 then processGo rest (rows, highest2)
        else .error "accept state has transitions"
      else
        if st.transitions.length > 0 then processGo rest (rows ++ stateRows st, highest2)
        else .error "no transitions"

/-- noir.rs lines 42-58: rows and `highest_state` start from `[]` and `0`. -/
def processStates (states : List DFAStateInfo) : Except String (List (Nat × Nat × Nat) × Nat) :=
  processGo states ([], 0)

/-- noir.rs lines 107-113: the extraction state for substring generation —
the second component of the first edge of the first substring range,
defaulting to `0` when the metadata is absent or empty
(`.get(0).and_then(|s| s.iter().next()).map(|&(_, second)| second).unwrap_or(0)`). -/
def substrStateOf (r : RegexAndDFA) : Nat :=
  (((r.substrings.substring_ranges[0]?).bind (fun first_set => first_set.head?)).map
    (fun p => p.2)).getD 0

/-- noir.rs lines 164-175: prefix every non-blank line with four spaces. -/
def indent (s : String) : String :=
  String.intercalate "\n"
    ((s.splitOn "\n").map (fun l => if l.trim.isEmpty then l else "    " ++ l))

/-- noir.rs lines 60-63: the body of the emitted `make_lookup_table`, one
assignment per row (`BYTE_SIZE` = 256 prints as `256`). -/
def lookupTableBodyOf (rows : List (Nat × Nat × Nat)) : String :=
  rows.foldl
    (fun acc row =>
      acc ++ "table[" ++ toString row.1 ++ " * 256 + " ++ toString row.2.1 ++ "] = " ++
        toString row.2.2 ++ ";\n")
    ""

/-- noir.rs lines 71-87: the end-anchor / accept-row loop of the emitted
table builder.  With an end anchor every entry of the accept state's row is
set to the invalid state, otherwise to the accept state itself. -/
def endAnchorLogicOf (has_end_anchor : Bool) (accept_state_id invalid_state : Nat) : String :=
  if has_end_anchor then
    "\nfor i in 0..256 \x7b\n    table[" ++ toString accept_state_id ++ " * 256 + i] = " ++
      toString invalid_state ++ ";\n\x7d\n            "
  else
    "\nfor i in 0..256 \x7b\n    table[" ++ toString accept_state_id ++ " * 256 + i] = " ++
      toString accept_state_id ++ ";\n\x7d\n            "

/-- noir.rs lines 90-101: the emitted `make_lookup_table` declaration. -/
def lookupTableDeclOf (table_size : Nat) (lookup_table_body end_anchor_logic : String) : String :=
  "\ncomptime fn make_lookup_table() -> [Field; " ++ toString table_size ++
    "] \x7b\n    let mut table = [0; " ++ toString table_size ++ "];\n" ++ lookup_table_body ++
    "\n    // experimentally confirmed that storing a transition for each char code for accept state produces less gates than adding an `if` to check if the current state is not \"accept\"\n    // I might be wrong. I tested for input of length 128 and 1024.\n    " ++
    end_anchor_logic ++ "\n    table\n\x7d\n      "

/-- noir.rs lines 115-153: the emitted driver.  The substring variant keeps
a `BoundedVec<Field, N>` and pushes the just-consumed byte when the new
state equals the extraction state; both variants start at `s = 0`, pre-step
with byte 255 and assert the final state equals the accept id. -/
def fnBodyOf (gen_substrs : Bool) (regex_pattern : String)
    (substr_state accept_state_id : Nat) : String :=
  if gen_substrs then
    "\n  global table = make_lookup_table();\n  pub fn regex_match<let N: u32>(input: [u8; N]) -> BoundedVec<Field, N> \x7b\n    // regex: " ++
      regex_pattern ++
      "\n    let mut s = 0;\n    let mut substring: BoundedVec<Field, N> = BoundedVec::new();\n    s = table[s * 256 + 255 as Field];\n    for i in 0..input.len() \x7b\n        let temp = input[i] as Field;\n        s = table[s * 256 + input[i] as Field];\n        if (s == " ++
      toString substr_state ++
      ") \x7b\n          substring.push(temp);\n      \x7d\n      \x7d\n    assert_eq(s, " ++
      toString accept_state_id ++ ", f\"no match: \x7bs\x7d\");\n    substring\n  \x7d\n      "
  else
    "\nglobal table = make_lookup_table();\npub fn regex_match<let N: u32>(input: [u8; N]) \x7b\n    // regex: " ++
      regex_pattern ++
      "\n    let mut s = 0;\n    s = table[s * 256 + 255 as Field];\n    for i in 0..input.len() \x7b\n        s = table[s * 256 + input[i] as Field];\n    \x7d\n    assert_eq(s, " ++
      toString accept_state_id ++ ", f\"no match: \x7bs\x7d\");\n\x7d\n    "

/-- noir.rs lines 28-162: the full generator.  Computes the accept state id,
checks every state and collects the transition rows, then assembles the
output text (the final `format!` plus `.trim()`). -/
def to_noir_fn (r : RegexAndDFA) (gen_substrs : Bool) : Except String String := do
  let accept_state_id ← acceptStateIdE r
  let (rows, highest_state) ← processStates r.dfa.states
  let lookup_table_body := indent (lookupTableBodyOf rows)
  let table_size := 256 * r.dfa.states.length
  let invalid_state := highest_state + 1
  let end_anchor_logic :=
    indent (endAnchorLogicOf r.has_end_anchor accept_state_id invalid_state)
  let lookup_table := lookupTableDeclOf table_size lookup_table_body end_anchor_logic
  let substr_state := substrStateOf r
  let fn_body := fnBodyOf gen_substrs r.regex_pattern substr_state accept_state_id
  pure (("\n        " ++ fn_body ++ "\n        " ++ lookup_table ++ "\n    ").trim)

/-! ## Semantics of the emitted Noir code

The emitted `make_lookup_table` and `regex_match` are fixed templates;
their meaning is embedded here as Lean functions over the parameters the
generator interpolates into them.  Array indexing is modelled with
`List.getD _ _ 0` (out-of-range reads yield 0; the theorems that need
actual values carry in-range hypotheses) and `List.set` (out-of-range
writes are dropped). -/

/-- The flat index written by the row `(curr_state, char_code, next_state)`:
`curr_state * 256 + char_code`. -/
def cell (row : Nat × Nat × Nat) : Nat := row.1 * 256 + row.2.1

/-- Execute a list of `table[curr * 256 + char] = next;` assignments in
order on a table. -/
def applyRows (rows : List (Nat × Nat × Nat)) (table : List Nat) : List Nat :=
  rows.foldl (fun t row => t.set (cell row) row.2.2) table

/-- The 256 writes of the accept-row loop (noir.rs lines 74-76 / 82-84),
as rows: entry `accept_state_id * 256 + i` receives `target` for every
`i < 256`. -/
def anchorRows (accept_state_id target : Nat) : List (Nat × Nat × Nat) :=
  (List.range 256).map (fun i => (accept_state_id, i, target))

/-- Semantics of the emitted `make_lookup_table` (noir.rs lines 90-101):
a table of `256 * numStates` zeros, the transition-row writes in order,
then the accept-row loop writing `invalid_state` when the end anchor is
set and `accept_state_id` (a self-loop) otherwise. -/
def make_lookup_table (numStates : Nat) (rows : List (Nat × Nat × Nat))
    (accept_state_id : Nat) (has_end_anchor : Bool) (invalid_state : Nat) : List Nat :=
  applyRows (anchorRows accept_state_id (if has_end_anchor then invalid_state else accept_state_id))
    (applyRows rows (List.replicate (256 * numStates) 0))

/-- The table the emitted `make_lookup_table` computes for a given input
automaton, wired to the same parameters `to_noir_fn` interpolates into the
template (accept id from the last state, rows and `highest_state` from the
state loop, `invalid_state = highest_state + 1`). -/
def emittedTable (r : RegexAndDFA) : Except String (List Nat) := do
  let accept_state_id ← acceptStateIdE r
  let (rows, highest_state) ← processStates r.dfa.states
  pure (make_lookup_table r.dfa.states.length rows accept_state_id r.has_end_anchor
    (highest_state + 1))

/-- A table read `table[i]` of the emitted code. -/
def lookup (table : List Nat) (i : Nat) : Nat := table.getD i 0

/-- One driver step `s = table[s * 256 + input[i]]`. -/
def driverStep (table : List Nat) (s b : Nat) : Nat := lookup table (s * 256 + b)

/-- The mandatory pre-step `s = table[s * 256 + 255]` performed from the
initial `s = 0` before any real input byte. -/
def preStepState (table : List Nat) : Nat := driverStep table 0 255

/-- The state after the emitted driver loop: start at 0, pre-step with the
sentinel byte 255, then one table-lookup step per input byte in order. -/
def finalState (table : List Nat) (input : List Nat) : Nat :=
  input.foldl (driverStep table) (preStepState table)

/-- Semantics of the emitted non-substring `regex_match` (noir.rs lines
139-150): walk the table and assert the final state equals the accept id,
failing with the diagnostic `no match: <state>`. -/
def regexMatchPlain (table : List Nat) (accept_state_id : Nat) (input : List Nat) :
    Except String Unit :=
  if finalState table input = accept_state_id then .ok ()
  else .error ("no match: " ++ toString (finalState table input))

/-- One step of the substring-variant loop body (noir.rs lines 124-130):
step the state, and push the just-consumed byte onto the buffer exactly
when the new state equals the extraction state. -/
def substrStep (table : List Nat) (substr_state : Nat) (p : Nat × List Nat) (b : Nat) :
    Nat × List Nat :=
  let s2 := driverStep table p.1 b
  (s2, if s2 = substr_state then p.2 ++ [b] else p.2)

/-- The state and collected substring buffer after the substring-variant
loop: buffer starts empty, state as in `finalState`. -/
def driverPair (table : List Nat) (substr_state : Nat) (input : List Nat) : Nat × List Nat :=
  input.foldl (substrStep table substr_state) (preStepState table, [])

/-- Semantics of the emitted substring `regex_match` (noir.rs lines
117-133): as `regexMatchPlain`, returning the collected buffer on
acceptance. -/
def regexMatchSubstrs (table : List Nat) (accept_state_id substr_state : Nat)
    (input : List Nat) : Except String (List Nat) :=
  let p := driverPair table substr_state input
  if p.1 = accept_state_id then .ok p.2
  else .error ("no match: " ++ toString p.1)

/-! ## Pure characterizations and well-formedness predicates -/

/-- The rows collected over the whole state list (what the loop of
noir.rs lines 45-58 accumulates when every check passes). -/
def collectedRows : List DFAStateInfo → List (Nat × Nat × Nat)
  | [] => []
  | st :: rest =>
      (if st.state_type = "accept" then [] else stateRows st) ++ collectedRows rest

/-- The table before the accept-row loop: zeros, then the transition-row
writes. -/
def preTable (r : RegexAndDFA) : List Nat :=
  applyRows (collectedRows r.dfa.states) (List.replicate (256 * r.dfa.states.length) 0)

/-- The running maximum `highest_state` over the whole state list (what the
loop of noir.rs lines 45-47 computes when every check passes). -/
def highestOf (r : RegexAndDFA) : Nat :=
  r.dfa.states.foldl (fun h st => max st.state_id h) 0

/-- The per-state generation check of noir.rs lines 48-51: an accept state
has no transitions, any other state has at least one. -/
def stateOkB (st : DFAStateInfo) : Bool :=
  if st.state_type = "accept" then st.transitions.length == 0
  else decide (st.transitions.length > 0)

/-- All per-state generation checks pass. -/
def checksPassB (states : List DFAStateInfo) : Bool := states.all stateOkB

/-- Spec §3 invariant: states are implicitly indexed by id, so every
state id is below the number of states. -/
def idsInRange (r : RegexAndDFA) : Prop :=
  ∀ st ∈ r.dfa.states, st.state_id < r.dfa.states.length

/-- Spec §3 invariant: every id referenced by a transition exists in the
sequence (hence is below the number of states), and every transition byte
is an actual byte value. -/
def transitionsInRange (r : RegexAndDFA) : Prop :=
  ∀ st ∈ r.dfa.states, ∀ tr ∈ st.transitions,
    tr.1 < r.dfa.states.length ∧ ∀ b ∈ tr.2, b < 256

/-- Spec §3 determinism invariant, expressed on the collected rows: no two
collected transition rows write the same table cell (at most one
destination per `(state, byte)` pair, states with distinct ids). -/
def deterministicRows (r : RegexAndDFA) : Prop :=
  ((collectedRows r.dfa.states).map cell).Nodup

/-- Distinct states carry distinct ids (spec §3: the sequence is indexed
by id). -/
def idsInjective (r : RegexAndDFA) : Prop :=
  ∀ s1 ∈ r.dfa.states, ∀ s2 ∈ r.dfa.states, s1.state_id = s2.state_id → s1 = s2

/-! ## Concrete example automatons -/

/-- Two states: `0 --97--> 1`, state 1 accepting; no end anchor.  The DFA
of the pattern `a`. -/
def exTwo : RegexAndDFA :=
  { regex_pattern := "a"
    dfa := { states :=
      [ { state_id := 0, state_type := "normal", transitions := [(1, [97])] }
      , { state_id := 1, state_type := "accept", transitions := [] } ] }
    has_end_anchor := false
    substrings := { substring_ranges := [] } }

/-- Three states with two accept states (ids 1 and 2): `0 --97--> 1`,
`0 --98--> 2`, both 1 and 2 accepting, state 2 last; no end anchor. -/
def exTwoAccept : RegexAndDFA :=
  { regex_pattern := "a|b"
    dfa := { states :=
      [ { state_id := 0, state_type := "normal", transitions := [(1, [97]), (2, [98])] }
      , { state_id := 1, state_type := "accept", transitions := [] }
      , { state_id := 2, state_type := "accept", transitions := [] } ] }
    has_end_anchor := false
    substrings := { substring_ranges := [] } }

/-- `exTwoAccept` with the end anchor set. -/
def exTwoAcceptEnd : RegexAndDFA :=
  { exTwoAccept with regex_pattern := "(a|b)$", has_end_anchor := true }

/-- An automaton with an empty state list. -/
def exEmpty : RegexAndDFA :=
  { regex_pattern := ""
    dfa := { states := [] }
    has_end_anchor := false
    substrings := { substring_ranges := [] } }

/-- A non-accept state with no transitions (state 1), last state accepting. -/
def exNoTransitions : RegexAndDFA :=
  { regex_pattern := "bad"
    dfa := { states :=
      [ { state_id := 0, state_type := "normal", transitions := [(1, [97])] }
      , { state_id := 1, state_type := "normal", transitions := [] }
      , { state_id := 2, state_type := "accept", transitions := [] } ] }
    has_end_anchor := false
    substrings := { substring_ranges := [] } }

/-- An accept state (the last) carrying a transition. -/
def exAcceptWithTransitions : RegexAndDFA :=
  { regex_pattern := "bad2"
    dfa := { states :=
      [ { state_id := 0, state_type := "normal", transitions := [(1, [97])] }
      , { state_id := 1, state_type := "accept", transitions := [(0, [98])] } ] }
    has_end_anchor := false
    substrings := { substring_ranges := [] } }

/-- No accept state at all (the last state is not of accept type). -/
def exNoAccept : RegexAndDFA :=
  { regex_pattern := "bad3"
    dfa := { states :=
      [ { state_id := 0, state_type := "normal", transitions := [(0, [97])] } ] }
    has_end_anchor := false
    substrings := { substring_ranges := [] } }

/-- `exTwo` with substring metadata whose first range's first edge is
`(0, 1)`: the extraction state is 1. -/
def exSubstr : RegexAndDFA :=
  { exTwo with substrings := { substring_ranges := [[(0, 1)]] } }

/-! ## Helper lemmas: table writes -/

theorem applyRows_nil (t : List Nat) : applyRows [] t = t := rfl

theorem applyRows_cons (row : Nat × Nat × Nat) (rows : List (Nat × Nat × Nat)) (t : List Nat) :
    applyRows (row :: rows) t = applyRows rows (t.set (cell row) row.2.2) := rfl

theorem applyRows_length (rows : List (Nat × Nat × Nat)) (t : List Nat) :
    (applyRows rows t).length = t.length := by
  induction rows generalizing t with
  | nil => rfl
  | cons row rows ih => simpa [applyRows_cons] using ih (t.set (cell row) row.2.2)

theorem getD_set_ne (t : List Nat) (n i a : Nat) (h : n ≠ i) :
    (t.set n a).getD i 0 = t.getD i 0 := by
  simp [List.getD_eq_getElem?_getD, List.getElem?_set_ne h]

theorem getD_set_self (t : List Nat) (i a : Nat) (h : i < t.length) :
    (t.set i a).getD i 0 = a := by
  simp [List.getD_eq_getElem?_getD, List.getElem?_set_self h]

theorem applyRows_getD_of_forall_ne (rows : List (Nat × Nat × Nat)) (t : List Nat) (i : Nat)
    (h : ∀ row ∈ rows, cell row ≠ i) :
    (applyRows rows t).getD i 0 = t.getD i 0 := by
  induction rows generalizing t with
  | nil => rfl
  | cons row rows ih =>
      rw [applyRows_cons, ih _ (fun r hr => h r (List.mem_cons_of_mem _ hr)),
        getD_set_ne _ _ _ _ (h row (List.mem_cons_self _ _))]

theorem applyRows_getD_of_mem : ∀ (rows : List (Nat × Nat × Nat)) (t : List Nat)
    (row : Nat × Nat × Nat), row ∈ rows → (rows.map cell).Nodup →
    cell row < t.length → (applyRows rows t).getD (cell row) 0 = row.2.2
  | [], _, _, hmem, _, _ => absurd hmem (List.not_mem_nil _)
  | hd :: rows, t, row, hmem, hnd, hlt => by
      rw [List.map_cons, List.nodup_cons] at hnd
      rcases List.mem_cons.1 hmem with heq | hmem'
      · subst heq
        rw [applyRows_cons, applyRows_getD_of_forall_ne]
        · exact getD_set_self _ _ _ hlt
        · intro r hr hc
          exact hnd.1 (hc ▸ List.mem_map_of_mem cell hr)
      · rw [applyRows_cons]
        exact applyRows_getD_of_mem rows _ row hmem' hnd.2
          (by simpa [List.length_set] using hlt)

theorem getD_le_of_le (t : List Nat) (B : Nat) (ht : ∀ j, t.getD j 0 ≤ B) (n a i : Nat)
    (ha : a ≤ B) : (t.set n a).getD i 0 ≤ B := by
  by_cases hni : n = i
  · by_cases hn : n < t.length
    · rw [hni] at hn ⊢
      rw [getD_set_self _ _ _ hn]
      exact ha
    · rw [List.set_eq_of_length_le (Nat.le_of_not_lt hn)]
      exact ht i
  · rw [getD_set_ne _ _ _ _ hni]
    exact ht i

theorem applyRows_getD_le (rows : List (Nat × Nat × Nat)) (t : List Nat) (B : Nat)
    (ht : ∀ j, t.getD j 0 ≤ B) (hrows : ∀ row ∈ rows, row.2.2 ≤ B) :
    ∀ i, (applyRows rows t).getD i 0 ≤ B := by
  induction rows generalizing t with
  | nil => exact ht
  | cons row rows ih =>
      intro i
      rw [applyRows_cons]
      exact ih _ (fun j => getD_le_of_le t B ht _ _ j (hrows row (List.mem_cons_self _ _)))
        (fun r hr => hrows r (List.mem_cons_of_mem _ hr)) i

theorem getD_replicate_zero (n i : Nat) : (List.replicate n (0 : Nat)).getD i 0 = 0 := by
  rcases Nat.lt_or_ge i n with h | h
  · simp [List.getD_eq_getElem?_getD, List.getElem?_replicate, h]
  · have hlen : (List.replicate n (0 : Nat)).length ≤ i := by simpa using h
    simp [List.getD_eq_getElem?_getD, List.getElem?_eq_none hlen]

/-! ## Helper lemmas: the accept-row loop -/

theorem anchorRows_cells_nodup (a target : Nat) :
    ((anchorRows a target).map cell).Nodup := by
  unfold anchorRows
  rw [List.map_map]
  refine List.Nodup.map ?_ (List.nodup_range 256)
  intro x y hxy
  simpa [cell] using hxy

theorem mem_anchorRows (a target b : Nat) (hb : b < 256) :
    (a, b, target) ∈ anchorRows a target := by
  unfold anchorRows
  exact List.mem_map_of_mem _ (List.mem_range.2 hb)

theorem anchorRows_cell_ne (a target i : Nat) (hi : ¬(a * 256 ≤ i ∧ i < a * 256 + 256)) :
    ∀ row ∈ anchorRows a target, cell row ≠ i := by
  intro row hrow
  unfold anchorRows at hrow
  rcases List.mem_map.1 hrow with ⟨j, hj, rfl⟩
  have hj' := List.mem_range.1 hj
  simp only [cell]
  omega

/-- The accept-row loop writes `target` into every entry of row `a` that is
inside the table. -/
theorem anchor_row_value (a target b : Nat) (t : List Nat) (hb : b < 256)
    (hlt : a * 256 + b < t.length) :
    (applyRows (anchorRows a target) t).getD (a * 256 + b) 0 = target := by
  have := applyRows_getD_of_mem (anchorRows a target) t (a, b, target)
    (mem_anchorRows a target b hb) (anchorRows_cells_nodup a target) (by simpa [cell] using hlt)
  simpa [cell] using this

/-- The accept-row loop leaves every entry outside row `a` unchanged. -/
theorem anchor_other_rows (a target i : Nat) (t : List Nat)
    (hi : ¬(a * 256 ≤ i ∧ i < a * 256 + 256)) :
    (applyRows (anchorRows a target) t).getD i 0 = t.getD i 0 :=
  applyRows_getD_of_forall_ne _ _ _ (anchorRows_cell_ne a target i hi)

/-! ## Helper lemmas: the state-checking loop -/

theorem processGo_ok_eq : ∀ (states : List DFAStateInfo)
    (acc res : List (Nat × Nat × Nat) × Nat), processGo states acc = .ok res →
    res = (acc.1 ++ collectedRows states, states.foldl (fun h st => max st.state_id h) acc.2)
  | [], acc, res, h => by
      simp only [processGo] at h
      cases h
      simp [collectedRows]
  | st :: states, (rows, highest), res, h => by
      simp only [processGo] at h
      by_cases hacc : st.state_type = "accept"
      · rw [if_pos hacc] at h
        by_cases hlen : st.transitions.length = 0
        · rw [if_pos hlen] at h
          have := processGo_ok_eq states _ res h
          simp [this, collectedRows, hacc, List.foldl_cons]
        · rw [if_neg hlen] at h
          cases h
      · rw [if_neg hacc] at h
        by_cases hlen : st.transitions.length > 0
        · rw [if_pos hlen] at h
          have := processGo_ok_eq states _ res h
          simp [this, collectedRows, hacc, List.foldl_cons, List.append_assoc]
        · rw [if_neg hlen] at h
          cases h

theorem processGo_ok_checks : ∀ (states : List DFAStateInfo)
    (acc res : List (Nat × Nat × Nat) × Nat), processGo states acc = .ok res →
    ∀ st ∈ states, stateOkB st = true
  | [], _, _, _, st, hst => absurd hst (List.not_mem_nil _)
  | hd :: states, (rows, highest), res, h, st, hst => by
      simp only [processGo] at h
      by_cases hacc : hd.state_type = "accept"
      · rw [if_pos hacc] at h
        by_cases hlen : hd.transitions.length = 0
        · rw [if_pos hlen] at h
          rcases List.mem_cons.1 hst with rfl | hst'
          · simp [stateOkB, hacc, hlen]
          · exact processGo_ok_checks states _ res h st hst'
        · rw [if_neg hlen] at h
          cases h
      · rw [if_neg hacc] at h
        by_cases hlen : hd.transitions.length > 0
        · rw [if_pos hlen] at h
          rcases List.mem_cons.1 hst with rfl | hst'
          · simp [stateOkB, hacc, hlen]
          · exact processGo_ok_checks states _ res h st hst'
        · rw [if_neg hlen] at h
          cases h

theorem processGo_error_of_violation : ∀ (states : List DFAStateInfo)
    (acc : List (Nat × Nat × Nat) × Nat),
    (∃ st ∈ states, stateOkB st = false) →
    ∃ e, processGo states acc = .error e ∧
      (e = "accept state has transitions" ∨ e = "no transitions")
  | [], _, h => by
      rcases h with ⟨st, hst, _⟩
      exact absurd hst (List.not_mem_nil _)
  | hd :: states, (rows, highest), h => by
      simp only [processGo]
      by_cases hacc : hd.state_type = "accept"
      · rw [if_pos hacc]
        by_cases hlen : hd.transitions.length = 0
        · rw [if_pos hlen]
          refine processGo_error_of_violation states _ ?_
          rcases h with ⟨st, hst, hbad⟩
          rcases List.mem_cons.1 hst with rfl | hst'
          · exfalso
            simp [stateOkB, hacc, hlen] at hbad
          · exact ⟨st, hst', hbad⟩
        · rw [if_neg hlen]
          exact ⟨_, rfl, Or.inl rfl⟩
      · rw [if_neg hacc]
        by_cases hlen : hd.transitions.length > 0
        · rw [if_pos hlen]
          refine processGo_error_of_violation states _ ?_
          rcases h with ⟨st, hst, hbad⟩
          rcases List.mem_cons.1 hst with rfl | hst'
          · exfalso
            simp only [stateOkB, if_neg hacc, decide_eq_false_iff_not] at hbad
            exact hbad hlen
          · exact ⟨st, hst', hbad⟩
        · rw [if_neg hlen]
          exact ⟨_, rfl, Or.inr rfl⟩

/-! ## Helper lemmas: the running maximum `highest_state` -/

theorem foldl_max_init_le : ∀ (states : List DFAStateInfo) (init : Nat),
    init ≤ states.foldl (fun h st => max st.state_id h) init
  | [], _ => Nat.le_refl _
  | st :: states, init =>
      Nat.le_trans (Nat.le_max_right st.state_id init) (foldl_max_init_le states _)

theorem id_le_foldl_max : ∀ (states : List DFAStateInfo) (init : Nat) (st : DFAStateInfo),
    st ∈ states → st.state_id ≤ states.foldl (fun h s => max s.state_id h) init
  | [], _, _, hst => absurd hst (List.not_mem_nil _)
  | hd :: states, init, st, hst => by
      rcases List.mem_cons.1 hst with rfl | hst'
      · exact Nat.le_trans (Nat.le_max_left _ init) (foldl_max_init_le states _)
      · exact id_le_foldl_max states _ st hst'

theorem foldl_max_lt : ∀ (states : List DFAStateInfo) (init n : Nat),
    (∀ st ∈ states, st.state_id < n) → init < n →
    states.foldl (fun h st => max st.state_id h) init < n
  | [], _, _, _, hinit => hinit
  | st :: states, init, n, hall, hinit =>
      foldl_max_lt states _ n (fun s hs => hall s (List.mem_cons_of_mem _ hs))
        (Nat.max_lt.2 ⟨hall st (List.mem_cons_self _ _), hinit⟩)

/-! ## Helper lemmas: membership in the collected rows -/

theorem mem_stateRows (st : DFAStateInfo) (row : Nat × Nat × Nat) :
    row ∈ stateRows st ↔
      ∃ tr ∈ st.transitions, ∃ b ∈ tr.2, row = (st.state_id, b, tr.1) := by
  simp only [stateRows, List.mem_flatMap, List.mem_map]
  constructor
  · rintro ⟨tr, htr, b, hb, rfl⟩
    exact ⟨tr, htr, b, hb, rfl⟩
  · rintro ⟨tr, htr, b, hb, rfl⟩
    exact ⟨tr, htr, b, hb, rfl⟩

theorem mem_collectedRows : ∀ (states : List DFAStateInfo) (row : Nat × Nat × Nat),
    row ∈ collectedRows states ↔
      ∃ st ∈ states, st.state_type ≠ "accept" ∧
        ∃ tr ∈ st.transitions, ∃ b ∈ tr.2, row = (st.state_id, b, tr.1)
  | [], row => by simp [collectedRows]
  | st :: states, row => by
      simp only [collectedRows, List.mem_append, mem_collectedRows states row]
      by_cases hacc : st.state_type = "accept"
      · simp only [if_pos hacc, List.not_mem_nil, false_or]
        constructor
        · rintro ⟨s, hs, hns, rest⟩
          exact ⟨s, List.mem_cons_of_mem _ hs, hns, rest⟩
        · rintro ⟨s, hs, hns, rest⟩
          rcases List.mem_cons.1 hs with rfl | hs'
          · exact absurd hacc hns
          · exact ⟨s, hs', hns, rest⟩
      · simp only [if_neg hacc, mem_stateRows]
        constructor
        · rintro (⟨tr, htr, b, hb, rfl⟩ | ⟨s, hs, hns, rest⟩)
          · exact ⟨st, List.mem_cons_self _ _, hacc, tr, htr, b, hb, rfl⟩
          · exact ⟨s, List.mem_cons_of_mem _ hs, hns, rest⟩
        · rintro ⟨s, hs, hns, tr, htr, b, hb, rfl⟩
          rcases List.mem_cons.1 hs with rfl | hs'
          · exact Or.inl ⟨tr, htr, b, hb, rfl⟩
          · exact Or.inr ⟨s, hs', hns, tr, htr, b, hb, rfl⟩

/-! ## Helper lemmas: the emitted driver -/

theorem finalState_nil (table : List Nat) : finalState table [] = preStepState table := rfl

theorem finalState_append (table : List Nat) (input : List Nat) (b : Nat) :
    finalState table (input ++ [b]) = driverStep table (finalState table input) b := by
  simp [finalState, List.foldl_append]

theorem driverPair_fst : ∀ (table : List Nat) (substr_state : Nat) (input : List Nat)
    (init : Nat) (buf : List Nat),
    (input.foldl (substrStep table substr_state) (init, buf)).1 =
      input.foldl (driverStep table) init
  | _, _, [], _, _ => rfl
  | table, es, b :: input, init, buf => by
      simp only [List.foldl_cons]
      exact driverPair_fst table es input _ _

theorem driverPair_fst_eq_finalState (table : List Nat) (substr_state : Nat)
    (input : List Nat) :
    (driverPair table substr_state input).1 = finalState table input :=
  driverPair_fst table substr_state input _ _

theorem driverPair_append (table : List Nat) (substr_state : Nat) (input : List Nat) (b : Nat) :
    driverPair table substr_state (input ++ [b]) =
      substrStep table substr_state (driverPair table substr_state input) b := by
  simp [driverPair, List.foldl_append]

theorem driverPair_buf_le : ∀ (table : List Nat) (substr_state : Nat) (input : List Nat)
    (init : Nat) (buf : List Nat),
    (input.foldl (substrStep table substr_state) (init, buf)).2.length ≤
      buf.length + input.length
  | _, _, [], _, _ => Nat.le_refl _
  | table, es, b :: input, init, buf => by
      simp only [List.foldl_cons, substrStep]
      by_cases h : driverStep table init b = es
      · rw [if_pos h]
        have := driverPair_buf_le table es input (driverStep table init b) (buf ++ [b])
        simp only [List.length_append, List.length_cons, List.length_nil] at this ⊢
        omega
      · rw [if_neg h]
        have := driverPair_buf_le table es input (driverStep table init b) buf
        simp only [List.length_cons] at this ⊢
        omega

theorem driverPair_buf_length_le (table : List Nat) (substr_state : Nat) (input : List Nat) :
    (driverPair table substr_state input).2.length ≤ input.length := by
  have := driverPair_buf_le table substr_state input (preStepState table) []
  simpa [driverPair] using this

/-! ## Helper lemmas: plumbing of the generator -/

theorem processGo_error_msgs : ∀ (states : List DFAStateInfo)
    (acc : List (Nat × Nat × Nat) × Nat) (e : String), processGo states acc = .error e →
    e = "accept state has transitions" ∨ e = "no transitions"
  | [], _, _, h => by simp [processGo] at h
  | st :: states, (rows, highest), e, h => by
      simp only [processGo] at h
      by_cases hacc : st.state_type = "accept"
      · rw [if_pos hacc] at h
        by_cases hlen : st.transitions.length = 0
        · rw [if_pos hlen] at h
          exact processGo_error_msgs states _ e h
        · rw [if_neg hlen] at h
          cases h
          exact Or.inl rfl
      · rw [if_neg hacc] at h
        by_cases hlen : st.transitions.length > 0
        · rw [if_pos hlen] at h
          exact processGo_error_msgs states _ e h
        · rw [if_neg hlen] at h
          cases h
          exact Or.inr rfl

theorem to_noir_fn_error_accept (r : RegexAndDFA) (g : Bool) (e : String)
    (h : acceptStateIdE r = .error e) : to_noir_fn r g = .error e := by
  unfold to_noir_fn
  rw [h]
  rfl

theorem to_noir_fn_error_process (r : RegexAndDFA) (g : Bool) (a : Nat) (e : String)
    (ha : acceptStateIdE r = .ok a) (hp : processStates r.dfa.states = .error e) :
    to_noir_fn r g = .error e := by
  unfold to_noir_fn
  rw [ha, hp]
  rfl

theorem to_noir_fn_ok_parts (r : RegexAndDFA) (g : Bool) (out : String)
    (h : to_noir_fn r g = .ok out) :
    (∃ a, acceptStateIdE r = .ok a) ∧
      ∃ res, processStates r.dfa.states = .ok res := by
  rcases hacc : acceptStateIdE r with e | a
  · rw [to_noir_fn_error_accept r g e hacc] at h
    cases h
  · refine ⟨⟨a, rfl⟩, ?_⟩
    rcases hproc : processStates r.dfa.states with e | res
    · rw [to_noir_fn_error_process r g a e hacc hproc] at h
      cases h
    · exact ⟨res, rfl⟩

theorem emittedTable_error_accept (r : RegexAndDFA) (e : String)
    (h : acceptStateIdE r = .error e) : emittedTable r = .error e := by
  unfold emittedTable
  rw [h]
  rfl

theorem emittedTable_error_process (r : RegexAndDFA) (a : Nat) (e : String)
    (ha : acceptStateIdE r = .ok a) (hp : processStates r.dfa.states = .error e) :
    emittedTable r = .error e := by
  unfold emittedTable
  rw [ha, hp]
  rfl

theorem emittedTable_ok (r : RegexAndDFA) (a : Nat) (rows : List (Nat × Nat × Nat))
    (highest : Nat) (ha : acceptStateIdE r = .ok a)
    (hp : processStates r.dfa.states = .ok (rows, highest)) :
    emittedTable r =
      .ok (make_lookup_table r.dfa.states.length rows a r.has_end_anchor (highest + 1)) := by
  unfold emittedTable
  rw [ha, hp]
  rfl

theorem processStates_ok_eq (r : RegexAndDFA) (rows : List (Nat × Nat × Nat)) (highest : Nat)
    (hp : processStates r.dfa.states = .ok (rows, highest)) :
    rows = collectedRows r.dfa.states ∧ highest = highestOf r := by
  have := processGo_ok_eq r.dfa.states ([], 0) (rows, highest) hp
  simp only [Prod.mk.injEq, List.nil_append] at this
  exact ⟨this.1, this.2⟩

theorem emittedTable_ok_eq (r : RegexAndDFA) (a : Nat) (t : List Nat)
    (ha : acceptStateIdE r = .ok a) (ht : emittedTable r = .ok t) :
    t = applyRows (anchorRows a (if r.has_end_anchor then highestOf r + 1 else a))
      (preTable r) := by
  rcases hproc : processStates r.dfa.states with e | ⟨rows, highest⟩
  · rw [emittedTable_error_process r a e ha hproc] at ht
    cases ht
  · rcases processStates_ok_eq r rows highest hproc with ⟨hr, hh⟩
    rw [emittedTable_ok r a rows highest ha hproc] at ht
    simp only [Except.ok.injEq] at ht
    rw [← ht, make_lookup_table, preTable, hr, hh]

theorem emittedTable_length (r : RegexAndDFA) (t : List Nat) (ht : emittedTable r = .ok t) :
    t.length = 256 * r.dfa.states.length := by
  rcases hacc : acceptStateIdE r with e | a
  · rw [emittedTable_error_accept r e hacc] at ht
    cases ht
  · rw [emittedTable_ok_eq r a t hacc ht]
    simp [applyRows_length, preTable, List.length_replicate]

theorem preTable_length (r : RegexAndDFA) : (preTable r).length = 256 * r.dfa.states.length := by
  simp [preTable, applyRows_length, List.length_replicate]

/-! ## Helper lemmas: the accept-state-id computation -/

theorem acceptStateIdE_ok_iff (r : RegexAndDFA) (a : Nat) :
    acceptStateIdE r = .ok a ↔
      ∃ last, r.dfa.states.getLast? = some last ∧ last.state_type = "accept" ∧
        a = last.state_id := by
  unfold acceptStateIdE
  rcases hl : r.dfa.states.getLast? with _ | last
  · simp
  · by_cases hacc : last.state_type = "accept"
    · simp only [if_pos hacc, Except.ok.injEq, Option.some.injEq]
      constructor
      · rintro rfl
        exact ⟨last, rfl, hacc, rfl⟩
      · rintro ⟨l, hl', ha', rfl⟩
        cases hl'
        rfl
    · simp only [if_neg hacc]
      constructor
      · rintro h
        cases h
      · rintro ⟨l, hl', ha', rfl⟩
        cases hl'
        exact absurd ha' hacc

theorem acceptStateIdE_error_msgs (r : RegexAndDFA) (e : String)
    (h : acceptStateIdE r = .error e) :
    e = "no last state" ∨ e = "last state is accept, right??" := by
  unfold acceptStateIdE at h
  split at h
  · cases h
    exact Or.inl rfl
  · split at h
    · cases h
    · cases h
      exact Or.inr rfl

theorem acceptStateIdE_none (r : RegexAndDFA) (h : r.dfa.states.getLast? = none) :
    acceptStateIdE r = .error "no last state" := by
  unfold acceptStateIdE
  rw [h]

theorem acceptStateIdE_not_accept (r : RegexAndDFA) (last : DFAStateInfo)
    (h : r.dfa.states.getLast? = some last) (hna : last.state_type ≠ "accept") :
    acceptStateIdE r = .error "last state is accept, right??" := by
  unfold acceptStateIdE
  rw [h]
  exact if_neg hna

theorem stateOkB_false_of_no_transitions (st : DFAStateInfo)
    (hna : st.state_type ≠ "accept") (he : st.transitions = []) : stateOkB st = false := by
  simp [stateOkB, if_neg hna, he]

theorem stateOkB_false_of_accept_transitions (st : DFAStateInfo)
    (hacc : st.state_type = "accept") (he : st.transitions ≠ []) : stateOkB st = false := by
  simp only [stateOkB, if_pos hacc, beq_eq_false_iff_ne, ne_eq, List.length_eq_zero]
  exact he

/-! ## Claim theorems -/

/-- Claim C5: generation aborts immediately with a descriptive diagnostic —
producing no partial output — whenever the input automaton is malformed: a
non-accept state has zero outgoing transitions, an accept state has a
non-empty transition set, or no accept state exists.  The result is an
`Except.error` (so no output string is produced) whose message is one of
the four fixed diagnostics of the generator. -/
theorem c5_generation_aborts (r : RegexAndDFA) (g : Bool)
    (h : (∃ st ∈ r.dfa.states, st.state_type ≠ "accept" ∧ st.transitions = []) ∨
         (∃ st ∈ r.dfa.states, st.state_type = "accept" ∧ st.transitions ≠ []) ∨
         (∀ st ∈ r.dfa.states, st.state_type ≠ "accept")) :
    ∃ e, to_noir_fn r g = .error e ∧
      (e = "no last state" ∨ e = "last state is accept, right??" ∨
       e = "accept state has transitions" ∨ e = "no transitions") := by
  rcases hacc : acceptStateIdE r with e | a
  · refine ⟨e, to_noir_fn_error_accept r g e hacc, ?_⟩
    rcases acceptStateIdE_error_msgs r e hacc with h1 | h2
    · exact Or.inl h1
    · exact Or.inr (Or.inl h2)
  · have hviol : ∃ st ∈ r.dfa.states, stateOkB st = false := by
      rcases h with ⟨st, hst, hna, he⟩ | ⟨st, hst, hacc', hne⟩ | hnone
      · exact ⟨st, hst, stateOkB_false_of_no_transitions st hna he⟩
      · exact ⟨st, hst, stateOkB_false_of_accept_transitions st hacc' hne⟩
      · rcases (acceptStateIdE_ok_iff r a).1 hacc with ⟨last, hl, hla, rfl⟩
        exact absurd hla (hnone last (List.mem_of_getLast?_eq_some hl))
    rcases processGo_error_of_violation r.dfa.states ([], 0) hviol with ⟨e, hpe, hmsg⟩
    refine ⟨e, to_noir_fn_error_process r g _ e hacc hpe, ?_⟩
    rcases hmsg with h1 | h2
    · exact Or.inr (Or.inr (Or.inl h1))
    · exact Or.inr (Or.inr (Or.inr h2))

/-- Witness for C5 at a concrete malformed automaton: `exNoTransitions`
has a non-accept state (id 1) with no transitions, and generation indeed
aborts with one of the fixed diagnostics. -/
theorem c5_generation_aborts_witness :
    ∃ e, to_noir_fn exNoTransitions false = .error e ∧
      (e = "no last state" ∨ e = "last state is accept, right??" ∨
       e = "accept state has transitions" ∨ e = "no transitions") :=
  c5_generation_aborts exNoTransitions false (by decide)

/-- Claim C6: for every table, extraction state and feature-flag variant,
the emitted driver initializes its state to 0, performs exactly one
pre-step with the sentinel byte 255 before consuming any real input
(`preStepState` is the lookup at `0 * 256 + 255`, and it is the driver's
state on empty input), and then consumes one byte per step in order,
reassigning the state via a table lookup at `state * 256 + byte`; the
substring variant's state evolves identically to the plain variant's. -/
theorem c6_driver_structure (table input : List Nat) (b substr_state : Nat) :
    preStepState table = lookup table (0 * 256 + 255) ∧
    finalState table [] = preStepState table ∧
    finalState table (input ++ [b]) = lookup table (finalState table input * 256 + b) ∧
    (driverPair table substr_state input).1 = finalState table input :=
  ⟨rfl, rfl, finalState_append table input b,
    driverPair_fst_eq_finalState table substr_state input⟩

/-- Claim C8: code generation is deterministic — the output is a pure
function of the `RegexAndDFA` input (automaton, anchor flag, pattern text,
substring metadata) and the substring-generation flag, so two invocations
with identical inputs produce byte-identical output. -/
theorem c8_determinism (r1 r2 : RegexAndDFA) (g1 g2 : Bool) (h1 : r1 = r2) (h2 : g1 = g2) :
    to_noir_fn r1 g1 = to_noir_fn r2 g2 := by
  rw [h1, h2]

/-- Witness for C8: two invocations on `exTwo` with the same flag agree. -/
theorem c8_determinism_witness : to_noir_fn exTwo false = to_noir_fn exTwo false :=
  c8_determinism exTwo exTwo false false rfl rfl

/-- On the table emitted for `exTwoAccept`, the input `[97]` terminates in
state 1. -/
theorem finalState_exTwoAccept_a (t : List Nat) (ht : emittedTable exTwoAccept = .ok t) :
    finalState t [97] = 1 := by
  have hteq := emittedTable_ok_eq exTwoAccept 2 t rfl ht
  have hpre255 : (preTable exTwoAccept).getD (0 * 256 + 255) 0 = 0 := by
    unfold preTable
    rw [applyRows_getD_of_forall_ne _ _ (0 * 256 + 255) (by decide), getD_replicate_zero]
  have hpre97 : (preTable exTwoAccept).getD (0 * 256 + 97) 0 = 1 := by
    unfold preTable
    have := applyRows_getD_of_mem (collectedRows exTwoAccept.dfa.states)
      (List.replicate (256 * exTwoAccept.dfa.states.length) 0) (0, 97, 1)
      (by decide) (by decide) (by decide)
    simpa [cell] using this
  have hstep0 : preStepState t = 0 := by
    show lookup t (0 * 256 + 255) = 0
    unfold lookup
    rw [hteq, anchor_other_rows 2 _ _ _ (by omega), hpre255]
  show driverStep t (preStepState t) 97 = 1
  rw [hstep0]
  show lookup t (0 * 256 + 97) = 1
  unfold lookup
  rw [hteq, anchor_other_rows 2 _ _ _ (by omega), hpre97]

/-- Claim C2 counterexample: `exTwoAccept` has two accept states (ids 1
and 2); the generator takes the last one (id 2) as the sole accept id, and
on the input `[97]` — whose walk through the emitted table terminates in
state 1, an accept state — the emitted acceptance check fails with the
diagnostic naming state 1.  So the check is not a disjunction over all
accept-state ids: a final state equal to a non-last accept id is
rejected. -/
theorem c2_counterexample :
    acceptStateIdE exTwoAccept = .ok 2 ∧
    (∃ st ∈ exTwoAccept.dfa.states, st.state_type = "accept" ∧ st.state_id = 1) ∧
    (emittedTable exTwoAccept).map (fun t => finalState t [97]) = .ok 1 ∧
    (emittedTable exTwoAccept).map (fun t => regexMatchPlain t 2 [97]) =
      .ok (.error "no match: 1") := by
  rcases htE : emittedTable exTwoAccept with e | t
  · exfalso
    have := emittedTable_ok exTwoAccept 2 [(0, 97, 1), (0, 98, 2)] 2 rfl rfl
    rw [htE] at this
    cases this
  · have hfin := finalState_exTwoAccept_a t htE
    refine ⟨rfl, by decide, ?_, ?_⟩
    · show Except.ok (finalState t [97]) = Except.ok 1
      rw [hfin]
    · show Except.ok (regexMatchPlain t 2 [97]) = Except.ok (Except.error "no match: 1")
      unfold regexMatchPlain
      rw [hfin]
      rfl

/-- Claim C2 corrected: the emitted acceptance check is a single equality
`s == accept_state_id` against the id of the automaton's *last* state (an
accept state), not a disjunction over all accept states: it succeeds if
and only if the final state equals that one id (accept states that are not
last are ignored), and on failure it reports the actual terminal state in
the diagnostic `no match: <state>`. -/
theorem c2_single_equality_check (r : RegexAndDFA) (a : Nat) (table input : List Nat)
    (ha : acceptStateIdE r = .ok a) :
    (∃ last, r.dfa.states.getLast? = some last ∧ last.state_type = "accept" ∧
      a = last.state_id) ∧
    (regexMatchPlain table a input = .ok () ↔ finalState table input = a) ∧
    (finalState table input ≠ a →
      regexMatchPlain table a input =
        .error ("no match: " ++ toString (finalState table input))) ∧
    (∀ substr_state, (∃ buf, regexMatchSubstrs table a substr_state input = .ok buf) ↔
      finalState table input = a) := by
  refine ⟨(acceptStateIdE_ok_iff r a).1 ha, ?_, ?_, ?_⟩
  · unfold regexMatchPlain
    by_cases hfs : finalState table input = a
    · simp [hfs]
    · simp [hfs]
  · intro hne
    unfold regexMatchPlain
    rw [if_neg hne]
  · intro substr_state
    simp only [regexMatchSubstrs, driverPair_fst_eq_finalState]
    by_cases hfs : finalState table input = a
    · simp [hfs]
    · simp [hfs]

/-- Witness for C2 (corrected) at `exTwoAccept`, whose accept id is 2:
the plain driver on the empty table accepts the empty input iff the final
state is 2 (here the final state is 0, so it does not). -/
theorem c2_single_equality_check_witness :
    (∃ last, exTwoAccept.dfa.states.getLast? = some last ∧ last.state_type = "accept" ∧
      2 = last.state_id) ∧
    (regexMatchPlain [] 2 [] = .ok () ↔ finalState [] [] = 2) :=
  ⟨(c2_single_equality_check exTwoAccept 2 [] [] rfl).1,
    (c2_single_equality_check exTwoAccept 2 [] [] rfl).2.1⟩

/-- Claim C9 (implicit): generation succeeds only when the last state of
the state sequence is an accept state — it errors when the list is empty
(`no last state`) or its last state is not of accept type — and the last
state's id is the sole accept id: it is the value the accept-state-id
computation returns, the anchor-resolution row rewrite touches only that
state's 256-entry row (all other entries keep their pre-anchor value), and
the emitted acceptance check compares the final state against that id
alone, so a final state differing from it — including any accept state
that is not last — is rejected. -/
theorem c9_last_state_accept (r : RegexAndDFA) (g : Bool) :
    (∀ out, to_noir_fn r g = .ok out →
      ∃ last, r.dfa.states.getLast? = some last ∧ last.state_type = "accept") ∧
    (r.dfa.states.getLast? = none → to_noir_fn r g = .error "no last state") ∧
    (∀ last, r.dfa.states.getLast? = some last → last.state_type ≠ "accept" →
      to_noir_fn r g = .error "last state is accept, right??") ∧
    (∀ last a, r.dfa.states.getLast? = some last → acceptStateIdE r = .ok a →
      a = last.state_id) ∧
    (∀ a t i, acceptStateIdE r = .ok a → emittedTable r = .ok t →
      ¬(a * 256 ≤ i ∧ i < a * 256 + 256) → t.getD i 0 = (preTable r).getD i 0) ∧
    (∀ a table input, acceptStateIdE r = .ok a → finalState table input ≠ a →
      regexMatchPlain table a input ≠ .ok ()) := by
  refine ⟨?_, ?_, ?_, ?_, ?_, ?_⟩
  · intro out hout
    rcases (to_noir_fn_ok_parts r g out hout).1 with ⟨a, ha⟩
    rcases (acceptStateIdE_ok_iff r a).1 ha with ⟨last, hl, hacc, _⟩
    exact ⟨last, hl, hacc⟩
  · intro hnone
    exact to_noir_fn_error_accept r g _ (acceptStateIdE_none r hnone)
  · intro last hl hna
    exact to_noir_fn_error_accept r g _ (acceptStateIdE_not_accept r last hl hna)
  · intro last a hl ha
    rcases (acceptStateIdE_ok_iff r a).1 ha with ⟨last', hl', _, rfl⟩
    rw [hl] at hl'
    cases hl'
    rfl
  · intro a t i ha ht hi
    rw [emittedTable_ok_eq r a t ha ht]
    exact anchor_other_rows a _ i _ hi
  · intro a table input ha hne
    unfold regexMatchPlain
    rw [if_neg hne]
    intro h
    cases h

/-- Witness for C9: generation on the empty automaton errors with
`no last state`, and on an automaton whose (single, hence last) state is
not of accept type it errors with the last-state assertion message. -/
theorem c9_last_state_accept_witness :
    to_noir_fn exEmpty false = .error "no last state" ∧
    to_noir_fn exNoAccept false = .error "last state is accept, right??" :=
  ⟨(c9_last_state_accept exEmpty false).2.1 rfl,
    (c9_last_state_accept exNoAccept false).2.2.1
      { state_id := 0, state_type := "normal", transitions := [(0, [97])] } rfl (by decide)⟩

/-- Claim C1 counterexample: `exTwo` has no end anchor and its accept
state has id 1; the emitted table-construction code sets
`table[1 * 256 + 98] = 1` (the accept state's own id), not the claimed
zero default. -/
theorem c1_counterexample :
    exTwo.has_end_anchor = false ∧
    acceptStateIdE exTwo = .ok 1 ∧
    (emittedTable exTwo).map (fun t => t.getD (1 * 256 + 98) 0) = .ok 1 ∧
    (1 : Nat) ≠ 0 := by
  rcases htE : emittedTable exTwo with e | t
  · exfalso
    have := emittedTable_ok exTwo 1 [(0, 97, 1)] 1 rfl rfl
    rw [htE] at this
    cases this
  · have hteq := emittedTable_ok_eq exTwo 1 t rfl htE
    refine ⟨rfl, rfl, ?_, by decide⟩
    show Except.ok (t.getD (1 * 256 + 98) 0) = Except.ok 1
    have hif : (if exTwo.has_end_anchor = true then highestOf exTwo + 1 else 1) = 1 := rfl
    rw [hif] at hteq
    rw [hteq, anchor_row_value 1 1 98 _ (by omega) (by rw [preTable_length]; decide)]

/-- Claim C1 corrected: when `has_end_anchor` is false the accept (last)
state's table row is **not** left at the Table Builder's zero default —
the emitted construction overwrites all 256 entries of that row with the
accept state's own id, a self-loop that makes acceptance sticky.  Rows of
accept states other than the last one are left at the zero default. -/
theorem c1_accept_row_self_loop (r : RegexAndDFA) (a : Nat) (t : List Nat) (b : Nat)
    (ha : acceptStateIdE r = .ok a) (ht : emittedTable r = .ok t)
    (hend : r.has_end_anchor = false) (hb : b < 256) (halt : a < r.dfa.states.length)
    (hinj : idsInjective r) (htr : transitionsInRange r) :
    t.getD (a * 256 + b) 0 = a ∧
    (∀ st ∈ r.dfa.states, st.state_type = "accept" → st.state_id ≠ a →
      t.getD (st.state_id * 256 + b) 0 = 0) := by
  have hteq := emittedTable_ok_eq r a t ha ht
  rw [hend] at hteq
  have hif : (if (false : Bool) = true then highestOf r + 1 else a) = a := rfl
  rw [hif] at hteq
  constructor
  · rw [hteq]
    exact anchor_row_value a a b _ hb (by rw [preTable_length]; omega)
  · intro st hst hacc hne
    rw [hteq, anchor_other_rows a _ _ _ (by omega)]
    unfold preTable
    rw [applyRows_getD_of_forall_ne, getD_replicate_zero]
    intro row hrow hcell
    rcases (mem_collectedRows _ row).1 hrow with ⟨src, hsrc, hsrcna, tr, htr', b', hb', rfl⟩
    have hb'lt : b' < 256 := (htr src hsrc tr htr').2 b' hb'
    have hid : src.state_id = st.state_id := by
      simp only [cell] at hcell
      omega
    have := hinj src hsrc st hst hid
    rw [this] at hsrcna
    exact hsrcna hacc

/-- Witness for C1 (corrected) on `exTwo`: entry `1 * 256 + 5` of the
emitted table holds the accept id 1 (self-loop), not 0. -/
theorem c1_accept_row_self_loop_witness :
    (make_lookup_table exTwo.dfa.states.length [(0, 97, 1)] 1 exTwo.has_end_anchor
      (1 + 1)).getD (1 * 256 + 5) 0 = 1 :=
  (c1_accept_row_self_loop exTwo 1 _ 5 rfl (emittedTable_ok exTwo 1 [(0, 97, 1)] 1 rfl rfl)
    rfl (by omega) (by decide) (by unfold idsInjective; decide)
    (by unfold transitionsInRange; decide)).1

/-- Claim C3 counterexample: `exTwoAcceptEnd` has `has_end_anchor = true`
and two accept states (ids 1 and 2, highest id 2, so the invalid sentinel
is 3); the emitted table-construction code leaves entry `1 * 256 + 97` of
the non-last accept state's row at 0, not the claimed invalid sentinel:
only the last accept state's row is overwritten. -/
theorem c3_counterexample :
    exTwoAcceptEnd.has_end_anchor = true ∧
    (∃ st ∈ exTwoAcceptEnd.dfa.states, st.state_type = "accept" ∧ st.state_id = 1) ∧
    processStates exTwoAcceptEnd.dfa.states = .ok ([(0, 97, 1), (0, 98, 2)], 2) ∧
    (emittedTable exTwoAcceptEnd).map (fun t => t.getD (1 * 256 + 97) 0) = .ok 0 ∧
    (0 : Nat) ≠ 2 + 1 := by
  rcases htE : emittedTable exTwoAcceptEnd with e | t
  · exfalso
    have := emittedTable_ok exTwoAcceptEnd 2 [(0, 97, 1), (0, 98, 2)] 2 rfl rfl
    rw [htE] at this
    cases this
  · have hteq := emittedTable_ok_eq exTwoAcceptEnd 2 t rfl htE
    refine ⟨rfl, by decide, rfl, ?_, by decide⟩
    show Except.ok (t.getD (1 * 256 + 97) 0) = Except.ok 0
    rw [hteq, anchor_other_rows 2 _ _ _ (by omega)]
    unfold preTable
    rw [applyRows_getD_of_forall_ne _ _ _ (by decide), getD_replicate_zero]

/-- Claim C3 corrected: with `has_end_anchor = true` the emitted
table-construction code overwrites all 256 entries of the row of the
**last** accept state (the sole `accept_state_id`) with the invalid state
id `highest_state + 1`, an id carried by no state of the automaton; rows
of accept states that are not last are not rewritten and keep the Table
Builder's zero default. -/
theorem c3_last_accept_row_invalid (r : RegexAndDFA) (a : Nat) (t : List Nat) (b : Nat)
    (ha : acceptStateIdE r = .ok a) (ht : emittedTable r = .ok t)
    (hend : r.has_end_anchor = true) (hb : b < 256) (halt : a < r.dfa.states.length)
    (hinj : idsInjective r) (htr : transitionsInRange r) :
    t.getD (a * 256 + b) 0 = highestOf r + 1 ∧
    (∀ st ∈ r.dfa.states, st.state_id ≠ highestOf r + 1) ∧
    (∀ st ∈ r.dfa.states, st.state_type = "accept" → st.state_id ≠ a →
      t.getD (st.state_id * 256 + b) 0 = 0) := by
  have hteq := emittedTable_ok_eq r a t ha ht
  rw [hend] at hteq
  have hif : (if (true : Bool) = true then highestOf r + 1 else a) = highestOf r + 1 := rfl
  rw [hif] at hteq
  refine ⟨?_, ?_, ?_⟩
  · rw [hteq]
    exact anchor_row_value a _ b _ hb (by rw [preTable_length]; omega)
  · intro st hst
    have := id_le_foldl_max r.dfa.states 0 st hst
    unfold highestOf
    omega
  · intro st hst hacc hne
    rw [hteq, anchor_other_rows a _ _ _ (by omega)]
    unfold preTable
    rw [applyRows_getD_of_forall_ne, getD_replicate_zero]
    intro row hrow hcell
    rcases (mem_collectedRows _ row).1 hrow with ⟨src, hsrc, hsrcna, tr, htr', b', hb', rfl⟩
    have hb'lt : b' < 256 := (htr src hsrc tr htr').2 b' hb'
    have hid : src.state_id = st.state_id := by
      simp only [cell] at hcell
      omega
    have := hinj src hsrc st hst hid
    rw [this] at hsrcna
    exact hsrcna hacc

/-- Witness for C3 (corrected) on `exTwoAcceptEnd`: entry `2 * 256 + 0` of
the emitted table holds the invalid sentinel `highest + 1`. -/
theorem c3_last_accept_row_invalid_witness :
    (make_lookup_table exTwoAcceptEnd.dfa.states.length [(0, 97, 1), (0, 98, 2)] 2
      exTwoAcceptEnd.has_end_anchor (2 + 1)).getD (2 * 256 + 0) 0 =
      highestOf exTwoAcceptEnd + 1 :=
  (c3_last_accept_row_invalid exTwoAcceptEnd 2 _ 0 rfl
    (emittedTable_ok exTwoAcceptEnd 2 [(0, 97, 1), (0, 98, 2)] 2 rfl rfl)
    rfl (by omega) (by decide) (by unfold idsInjective; decide)
    (by unfold transitionsInRange; decide)).1

theorem emittedTable_ok_parts (r : RegexAndDFA) (t : List Nat)
    (h : emittedTable r = .ok t) :
    (∃ a, acceptStateIdE r = .ok a) ∧ ∃ res, processStates r.dfa.states = .ok res := by
  rcases hacc : acceptStateIdE r with e | a
  · rw [emittedTable_error_accept r e hacc] at h
    cases h
  · refine ⟨⟨a, rfl⟩, ?_⟩
    rcases hproc : processStates r.dfa.states with e | res
    · rw [emittedTable_error_process r a e hacc hproc] at h
      cases h
    · exact ⟨res, rfl⟩

/-- Claim C4: the emitted table-construction code builds a flat array of
length exactly `256 * |states|` initialized entirely to 0; every explicit
transition `(src, byte_set, dst)` writes `table[src * 256 + byte] = dst`
for every `byte` in the set; entries not covered by any transition remain
0 before anchor resolution; and after anchor resolution every entry is a
state id in `[0, |states|]` (the upper bound `|states|` being the reserved
invalid sentinel).  The hypotheses are the spec §3 data-model invariants:
ids below `|states|`, transitions referencing existing states with byte
values, and determinism (no two rows write the same cell). -/
theorem c4_table_construction (r : RegexAndDFA) (t : List Nat)
    (ht : emittedTable r = .ok t) (hids : idsInRange r) (htr : transitionsInRange r)
    (hdet : deterministicRows r) :
    t.length = 256 * r.dfa.states.length ∧
    (∀ st ∈ r.dfa.states, ∀ tr ∈ st.transitions, ∀ b ∈ tr.2,
      (preTable r).getD (st.state_id * 256 + b) 0 = tr.1) ∧
    (∀ i, (∀ st ∈ r.dfa.states, ∀ tr ∈ st.transitions, ∀ b ∈ tr.2,
      st.state_id * 256 + b ≠ i) → (preTable r).getD i 0 = 0) ∧
    (∀ i, t.getD i 0 ≤ r.dfa.states.length) := by
  rcases emittedTable_ok_parts r t ht with ⟨⟨a, ha⟩, ⟨⟨rows, highest⟩, hproc⟩⟩
  have hchecks := processGo_ok_checks r.dfa.states ([], 0) (rows, highest) hproc
  refine ⟨emittedTable_length r t ht, ?_, ?_, ?_⟩
  · intro st hst tr htr' b hb
    by_cases hacc : st.state_type = "accept"
    · exfalso
      have hok := hchecks st hst
      rw [stateOkB, if_pos hacc] at hok
      have : st.transitions = [] := by
        simpa [List.length_eq_zero] using hok
      rw [this] at htr'
      exact absurd htr' (List.not_mem_nil _)
    · have hmem : (st.state_id, b, tr.1) ∈ collectedRows r.dfa.states :=
        (mem_collectedRows _ _).2 ⟨st, hst, hacc, tr, htr', b, hb, rfl⟩
      have hblt : b < 256 := (htr st hst tr htr').2 b hb
      have hidlt : st.state_id < r.dfa.states.length := hids st hst
      have hcell : cell (st.state_id, b, tr.1) <
          (List.replicate (256 * r.dfa.states.length) (0 : Nat)).length := by
        simp only [cell, List.length_replicate]
        omega
      have := applyRows_getD_of_mem (collectedRows r.dfa.states)
        (List.replicate (256 * r.dfa.states.length) 0) (st.state_id, b, tr.1)
        hmem hdet hcell
      unfold preTable
      simpa [cell] using this
  · intro i hi
    unfold preTable
    rw [applyRows_getD_of_forall_ne, getD_replicate_zero]
    intro row hrow hcell
    rcases (mem_collectedRows _ row).1 hrow with ⟨src, hsrc, _, tr, htr', b', hb', rfl⟩
    exact hi src hsrc tr htr' b' hb' (by simpa [cell] using hcell)
  · intro i
    have hteq := emittedTable_ok_eq r a t ha ht
    rcases (acceptStateIdE_ok_iff r a).1 ha with ⟨last, hl, _, rfl⟩
    have hlast_mem := List.mem_of_getLast?_eq_some hl
    have halt : last.state_id < r.dfa.states.length := hids last hlast_mem
    have hlenpos : 0 < r.dfa.states.length := List.length_pos_of_mem hlast_mem
    have hinv : highestOf r + 1 ≤ r.dfa.states.length := by
      have := foldl_max_lt r.dfa.states 0 r.dfa.states.length
        (fun st hst => hids st hst) hlenpos
      unfold highestOf
      omega
    have htarget : (if r.has_end_anchor = true then highestOf r + 1 else last.state_id) ≤
        r.dfa.states.length := by
      by_cases hend : r.has_end_anchor = true
      · rw [if_pos hend]
        exact hinv
      · rw [if_neg hend]
        omega
    have hpre_le : ∀ j, (applyRows (collectedRows r.dfa.states)
        (List.replicate (256 * r.dfa.states.length) 0)).getD j 0 ≤
          r.dfa.states.length := by
      apply applyRows_getD_le
      · intro j
        rw [getD_replicate_zero]
        omega
      · intro row hrow
        rcases (mem_collectedRows _ row).1 hrow with ⟨src, hsrc, _, tr, htr', b', hb', rfl⟩
        exact Nat.le_of_lt ((htr src hsrc tr htr').1)
    rw [hteq]
    apply applyRows_getD_le
    · exact hpre_le
    · intro row hrow
      rcases List.mem_map.1 hrow with ⟨j, _, rfl⟩
      exact htarget

/-- Witness for C4 on `exTwo`: the emitted table has length
`256 * |states|`. -/
theorem c4_table_construction_witness :
    (make_lookup_table exTwo.dfa.states.length [(0, 97, 1)] 1 exTwo.has_end_anchor
      (1 + 1)).length = 256 * exTwo.dfa.states.length :=
  (c4_table_construction exTwo _ (emittedTable_ok exTwo 1 [(0, 97, 1)] 1 rfl rfl)
    (by unfold idsInRange; decide) (by unfold transitionsInRange; decide)
    (by unfold deterministicRows; decide)).1

/-- Claim C7: when substring generation is requested, the extraction state
is the destination (second) component of the first boundary pair of the
first substring range; the emitted driver, after computing each new state,
appends the just-consumed byte to the output buffer if and only if the new
state equals that extraction state; and the buffer can never exceed the
input length (matching its declared capacity `N`). -/
theorem c7_substring_extraction (r : RegexAndDFA) (first_set : List (Nat × Nat))
    (p : Nat × Nat) (h1 : r.substrings.substring_ranges[0]? = some first_set)
    (h2 : first_set.head? = some p) :
    substrStateOf r = p.2 ∧
    (∀ table input b,
      (driverPair table p.2 (input ++ [b])).1 =
        driverStep table (finalState table input) b ∧
      (driverPair table p.2 (input ++ [b])).2 =
        (if driverStep table (finalState table input) b = p.2
         then (driverPair table p.2 input).2 ++ [b]
         else (driverPair table p.2 input).2)) ∧
    (∀ table input, (driverPair table p.2 input).2.length ≤ input.length) := by
  refine ⟨?_, ?_, ?_⟩
  · unfold substrStateOf
    rw [h1]
    show (((first_set.head?).map (fun p => p.2)).getD 0) = p.2
    rw [h2]
    rfl
  · intro table input b
    rw [driverPair_append]
    simp only [substrStep, driverPair_fst_eq_finalState]
    exact ⟨trivial, trivial⟩
  · intro table input
    exact driverPair_buf_length_le table p.2 input

/-- Witness for C7 on `exSubstr`, whose first boundary pair is `(0, 1)`:
the extraction state is 1. -/
theorem c7_substring_extraction_witness : substrStateOf exSubstr = 1 :=
  (c7_substring_extraction exSubstr [(0, 1)] (0, 1) rfl rfl).1

/-- Claim C10 (implicit): when substring generation is requested but the
substring-range metadata is empty (or its first edge set is empty), the
extraction state silently defaults to state id 0 — generation does not
fail — so the emitted driver appends to the output buffer exactly those
bytes whose transition lands in state 0. -/
theorem c10_substr_state_default_zero (r : RegexAndDFA)
    (h : r.substrings.substring_ranges[0]? = none ∨
      r.substrings.substring_ranges[0]? = some []) :
    substrStateOf r = 0 ∧
    (∀ table input b,
      (driverPair table 0 (input ++ [b])).2 =
        (if driverStep table (finalState table input) b = 0
         then (driverPair table 0 input).2 ++ [b]
         else (driverPair table 0 input).2)) := by
  constructor
  · unfold substrStateOf
    rcases h with h | h
    · rw [h]
      rfl
    · rw [h]
      rfl
  · intro table input b
    rw [driverPair_append]
    simp only [substrStep, driverPair_fst_eq_finalState]

/-- Witness for C10 on `exTwo`, whose substring metadata is empty: the
extraction state defaults to 0. -/
theorem c10_substr_state_default_zero_witness : substrStateOf exTwo = 0 :=
  (c10_substr_state_default_zero exTwo (Or.inl rfl)).1

end ZkRegexNoir
